import Mathlib

/-!
Verification of the ALVR macOS bridge (shared-memory ring, HEVC encoder
wrapper, and orchestration loop) against its natural-language specification.

The development shallowly embeds the three Rust source files:
  * `encoder.rs`   — BGRA→I420 conversion (`bgra_to_i420`) and the
    AVCC (length-prefixed) → Annex-B (start-code) reformatter
    (`avcc_to_annexb`);
  * `shared_memory.rs` — the ring layout (`frame_offset`, `total_size`)
    and the consumer-side acquire operation (`try_acquire_frame`);
  * `main.rs`      — the steady-state bridge loop (event draining, the
    `force_idr` latch, the `config_sent` latch, and the calls made to the
    streaming session).

Machine integers are modelled as `Nat`/`Int` with explicit wrap-around
(`% 2^32`) where u32 arithmetic can overflow.  Rust slices into the memory
mapping are modelled as `(offset, length)` views together with the bounds
check Rust performs; an out-of-bounds index (a Rust panic) is modelled as
`none` / `Except.error`.
-/

/-! ## Encoder: BGRA→I420 conversion (`HevcEncoder::bgra_to_i420`) -/

/-- Rust `i32 >> 8` is an arithmetic right shift, i.e. flooring division
by 256. -/
def asr8 (n : Int) : Int := Int.fdiv n 256

/-- Rust `v.clamp(0, 255)`. -/
def clamp255 (n : Int) : Int := max 0 (min n 255)

/-- Y value of one pixel: `((66*r + 129*g + 25*b + 128) >> 8) + 16`,
clamped to `[0, 255]` (BT.601, from the source). -/
def yOfRGB (r g b : Int) : Int := clamp255 (asr8 (66*r + 129*g + 25*b + 128) + 16)

/-- U value: `((-38*r - 74*g + 112*b + 128) >> 8) + 128`, clamped. -/
def uOfRGB (r g b : Int) : Int := clamp255 (asr8 (-38*r - 74*g + 112*b + 128) + 128)

/-- V value: `((112*r - 94*g - 18*b + 128) >> 8) + 128`, clamped. -/
def vOfRGB (r g b : Int) : Int := clamp255 (asr8 (112*r - 94*g - 18*b + 128) + 128)

/-- The three pre-allocated planar buffers of `HevcEncoder`. -/
structure Planes where
  y : List Nat
  u : List Nat
  v : List Nat
deriving DecidableEq, Repr

/-- Rust `vec[i] = v`: in-bounds write, or a panic (modelled as `none`). -/
def setAt (l : List Nat) (i v : Nat) : Option (List Nat) :=
  if i < l.length then some (l.set i v) else none

/-- Body of the double loop of `bgra_to_i420` for one pixel `(yy, xx)`:
read `b`, `g`, `r` at `(yy*w + xx)*4 + {0,1,2}` (alpha is never read),
write the Y plane at `yy*w + xx`, and on even `(yy, xx)` write the U and V
planes at `(yy/2)*(w/2) + xx/2`.  Any out-of-bounds access is `none`. -/
def convertPixel (w : Nat) (bgra : List Nat) (yy xx : Nat) (p : Planes) : Option Planes :=
  (bgra.get? ((yy*w + xx) * 4)).bind fun b =>
  (bgra.get? ((yy*w + xx) * 4 + 1)).bind fun g =>
  (bgra.get? ((yy*w + xx) * 4 + 2)).bind fun r =>
  (setAt p.y (yy*w + xx) (yOfRGB (r : Int) (g : Int) (b : Int)).toNat).bind fun yp =>
  if yy % 2 = 0 ∧ xx % 2 = 0 then
    (setAt p.u ((yy/2) * (w/2) + xx/2) (uOfRGB (r : Int) (g : Int) (b : Int)).toNat).bind fun up =>
    (setAt p.v ((yy/2) * (w/2) + xx/2) (vOfRGB (r : Int) (g : Int) (b : Int)).toNat).bind fun vp =>
    some ⟨yp, up, vp⟩
  else
    some ⟨yp, p.u, p.v⟩

/-- `bgra_to_i420` proper: the double loop `for yy in 0..h, for xx in 0..w`
over the pre-allocated planes. -/
def bgra_to_i420 (w h : Nat) (bgra : List Nat) (p : Planes) : Option Planes :=
  (List.range h).foldlM
    (fun acc yy => (List.range w).foldlM (fun acc2 xx => convertPixel w bgra yy xx acc2) acc) p

/-- The planes as pre-allocated by `HevcEncoder::new`: `Y` of size `w*h`,
`U` and `V` of size `w*h/4`, zero-filled. -/
def newPlanes (w h : Nat) : Planes :=
  ⟨List.replicate (w*h) 0, List.replicate (w*h/4) 0, List.replicate (w*h/4) 0⟩

/-- Conversion of a frame by a freshly constructed encoder (the composition
of `HevcEncoder::new` plane allocation and `bgra_to_i420`). -/
def encodeConvert (w h : Nat) (bgra : List Nat) : Option Planes :=
  bgra_to_i420 w h bgra (newPlanes w h)

/-- A 2×2 solid red BGRA image `(B, G, R, A) = (0, 0, 255, αᵢ)` with
arbitrary alpha bytes. -/
def red2x2 (a1 a2 a3 a4 : Nat) : List Nat :=
  [0, 0, 255, a1, 0, 0, 255, a2, 0, 0, 255, a3, 0, 0, 255, a4]

/-- The invariant maintained across the conversion loops: the plane sizes
chosen by `HevcEncoder::new`. -/
def planesInv (w h : Nat) (p : Planes) : Prop :=
  p.y.length = w * h ∧ p.u.length = w * h / 4 ∧ p.v.length = w * h / 4

/-! ## Encoder: AVCC → Annex-B reformatting (`avcc_to_annexb`) -/

/-- Annex-B NAL start code `00 00 00 01`. -/
def NAL_START_CODE : List Nat := [0, 0, 0, 1]

/-- Big-endian 32-bit value of four bytes. -/
def be32val (a b c d : Nat) : Nat := ((a * 256 + b) * 256 + c) * 256 + d

/-- Big-endian 4-byte encoding of a value below `2^32`. -/
def be32 (L : Nat) : List Nat :=
  [L / 16777216 % 256, L / 65536 % 256, L / 256 % 256, L % 256]

/-- `avcc_to_annexb` from the source: while at least 4 bytes remain, read a
big-endian length `L`; if `L` exceeds the remaining bytes, stop; otherwise
emit the start code followed by the `L` payload bytes and continue. -/
def avcc_to_annexb (l : List Nat) : List Nat :=
  match l with
  | a :: b :: c :: d :: rest =>
    if be32val a b c d ≤ rest.length then
      NAL_START_CODE ++ rest.take (be32val a b c d) ++ avcc_to_annexb (rest.drop (be32val a b c d))
    else []
  | _ => []
termination_by l.length
decreasing_by simp; omega

/-- Payloads of the well-formed records consumed by the walk of
`avcc_to_annexb` (the same scan, returning the records instead of the
reformatted bytes). -/
def parseRecords (l : List Nat) : List (List Nat) :=
  match l with
  | a :: b :: c :: d :: rest =>
    if be32val a b c d ≤ rest.length then
      rest.take (be32val a b c d) :: parseRecords (rest.drop (be32val a b c d))
    else []
  | _ => []
termination_by l.length
decreasing_by simp; omega

/-- Concatenation of length-prefixed records `[len32][payload]…`. -/
def encodeRecords : List (List Nat) → List Nat
  | [] => []
  | p :: ps => be32 p.length ++ p ++ encodeRecords ps

/-- Concatenation of start-code framed payloads `[00 00 00 01][payload]…`. -/
def framed : List (List Nat) → List Nat
  | [] => []
  | p :: ps => NAL_START_CODE ++ p ++ framed ps

/-- Whether a byte string contains the 4-byte start code as a contiguous
substring. -/
def hasSep : List Nat → Bool
  | [] => false
  | x :: rest => if x = 0 ∧ rest.take 3 = [0, 0, 1] then true else hasSep rest

/-- Split a byte string on (non-overlapping, leftmost-first) occurrences of
the 4-byte start code; the segments between separators, in order. -/
def splitSep (l : List Nat) : List (List Nat) :=
  match l with
  | [] => [[]]
  | x :: rest =>
    if x = 0 ∧ rest.take 3 = [0, 0, 1] then
      [] :: splitSep (rest.drop 3)
    else
      match splitSep rest with
      | [] => [[x]]
      | s :: ss => (x :: s) :: ss
termination_by l.length
decreasing_by all_goals (simp; try omega)

/-- NAL units of an Annex-B stream, re-parsed by splitting on the start
code: the segments after the (empty) segment preceding the leading start
code. -/
def nalUnits (l : List Nat) : List (List Nat) := (splitSep l).drop 1

/-! ## Shared memory ring (`shared_memory.rs`) -/

/-- Maximum frame width. -/
def MAX_WIDTH : Nat := 4096

/-- Maximum frame height. -/
def MAX_HEIGHT : Nat := 2048

/-- Bytes per BGRA pixel. -/
def BYTES_PER_PIXEL : Nat := 4

/-- Maximum pixel-region size per buffer. -/
def MAX_FRAME_SIZE : Nat := MAX_WIDTH * MAX_HEIGHT * BYTES_PER_PIXEL

/-- Number of ring buffers. -/
def NUM_BUFFERS : Nat := 3

/-- Frame states (`FrameState` repr u32). -/
def EMPTY : Nat := 0

/-- `FrameState::Writing`. -/
def WRITING : Nat := 1

/-- `FrameState::Ready`. -/
def READY : Nat := 2

/-- `FrameState::Encoding`. -/
def ENCODING : Nat := 3

/-- Size in bytes of the `repr(C)` struct `FrameHeaderRaw`: `state`,
`width`, `height`, `stride` (4 bytes each), `timestamp_ns`, `frame_number`
(8 each), `is_idr` (1), `padding` (7), `pose` (3×4 f32 = 48).  Every field
is naturally aligned at its offset, so there is no implicit padding and
the size is the plain sum (= 88). -/
def frameHeaderRawSize : Nat := 4 + 4 + 4 + 4 + 8 + 8 + 1 + 7 + 4 * 4 * 3

/-- Size in bytes of the `repr(C)` struct `SharedMemoryHeader`: eight u32
fields (32), five u64 counters (40), 64 reserved bytes, and `NUM_BUFFERS`
frame headers.  All fields are naturally aligned, so the size is the plain
sum (= 400). -/
def sharedMemoryHeaderSize : Nat := 4 * 8 + 8 * 5 + 64 + NUM_BUFFERS * frameHeaderRawSize

/-- `(header_size + 4095) & !4095` from the source: round up to a multiple
of 4096 (the bit-mask form agrees with this arithmetic form for all values
in range). -/
def align_up_4096 (n : Nat) : Nat := (n + 4095) / 4096 * 4096

/-- Offset of buffer `i`'s pixel data (`frame_offset` in the source). -/
def frame_offset (buffer_index : Nat) : Nat :=
  align_up_4096 sharedMemoryHeaderSize + buffer_index * MAX_FRAME_SIZE

/-- Total shared-memory size (`total_size` in the source). -/
def total_size : Nat := frame_offset NUM_BUFFERS

/-- Model of `FrameHeaderRaw`: the per-buffer metadata slot.  The `pose`
array of 12 f32 values is only ever copied verbatim, so it is carried as
its raw 32-bit words. -/
structure FrameHeaderRawM where
  state : Nat
  width : Nat
  height : Nat
  stride : Nat
  timestamp_ns : Nat
  frame_number : Nat
  is_idr : Nat
  pose : List Nat
deriving DecidableEq, Repr

/-- Model of the copyable `FrameHeader` snapshot returned to callers. -/
structure FrameHeaderC where
  width : Nat
  height : Nat
  stride : Nat
  timestamp_ns : Nat
  frame_number : Nat
  is_idr : Nat
  pose : List Nat
deriving DecidableEq, Repr

/-- `FrameHeader::from_raw`: copy every field except `state`. -/
def FrameHeaderC.from_raw (r : FrameHeaderRawM) : FrameHeaderC :=
  ⟨r.width, r.height, r.stride, r.timestamp_ns, r.frame_number, r.is_idr, r.pose⟩

/-- Model of the consumer's view of the mapping: the `NUM_BUFFERS` frame
header slots and the length of the memory mapping.  (The other header
fields — magic, config, counters — are not touched by
`try_acquire_frame` and are omitted here.) -/
structure SharedMemoryM where
  frame_headers : List FrameHeaderRawM
  mmapLen : Nat
deriving DecidableEq, Repr

/-- Rust `&mmap[offset .. offset + size]`: a borrowed slice is a view
`(offset, size)` into the mapping, built only after the bounds check
`offset + size ≤ mmap.len()`; a failed check is a panic (`none`). -/
def sliceView (mmapLen offset size : Nat) : Option (Nat × Nat) :=
  if offset + size ≤ mmapLen then some (offset, size) else none

/-- The `height * stride` computation of `try_acquire_frame` is a u32
multiplication: it wraps modulo `2^32`. -/
def frameSizeC (c : FrameHeaderC) : Nat := c.height * c.stride % 4294967296

/-- Scan loop of `try_acquire_frame`, starting at absolute buffer index
`i`: find the first slot whose `state` compare-exchanges
`READY → ENCODING`; snapshot its metadata; take the pixel slice of
`height * stride` bytes at `frame_offset i`.  A panic while slicing is
`Except.error ()`; otherwise the (possibly updated) slots and the result
are returned. -/
def try_acquire_aux (mmapLen : Nat) :
    List FrameHeaderRawM → Nat →
    Except Unit (List FrameHeaderRawM × Option (Nat × FrameHeaderC × (Nat × Nat)))
  | [], _ => .ok ([], none)
  | h :: rest, i =>
    if h.state = READY then
      match sliceView mmapLen (frame_offset i) (frameSizeC (FrameHeaderC.from_raw h)) with
      | some view => .ok ({ h with state := ENCODING } :: rest,
                          some (i, FrameHeaderC.from_raw h, view))
      | none => .error ()
    else
      match try_acquire_aux mmapLen rest (i + 1) with
      | .ok (rest2, res) => .ok (h :: rest2, res)
      | .error e => .error e

/-- `SharedMemory::try_acquire_frame`: scan buffers `0..NUM_BUFFERS` in
ascending order; return the first acquired buffer (index, metadata
snapshot, pixel slice) or `none`; a slice panic is `Except.error ()`. -/
def try_acquire_frame (s : SharedMemoryM) :
    Except Unit (SharedMemoryM × Option (Nat × FrameHeaderC × (Nat × Nat))) :=
  match try_acquire_aux s.mmapLen s.frame_headers 0 with
  | .ok (hs, res) => .ok ({ s with frame_headers := hs }, res)
  | .error e => .error e

/-- A slot whose state is `Empty` with zeroed metadata. -/
def emptyHdr : FrameHeaderRawM := ⟨0, 0, 0, 0, 0, 0, 0, []⟩

/-- A `Ready` slot whose frame dimensions violate the documented invariant:
`height * stride = 1 * (MAX_FRAME_SIZE + 1) > MAX_FRAME_SIZE`. -/
def oversizedHdr : FrameHeaderRawM := ⟨2, 1, 1, 33554433, 0, 0, 0, []⟩

/-- A well-formed `Ready` slot (`height * stride = 64 * 256 = 16384`). -/
def readyHdr : FrameHeaderRawM := ⟨2, 64, 64, 256, 5, 6, 1, [7]⟩

/-! ## Bridge loop (`main.rs`, steady state) -/

/-- The session events the loop reacts to (all others are ignored). -/
inductive ServerEvent where
  | clientConnected
  | clientDisconnected
  | requestIdr
  | other
deriving DecidableEq, Repr

/-- The mutable loop state: the `client_connected` and `force_idr` locals
of `run_bridge` and the encoder's `config_sent` latch. -/
structure LoopState where
  client_connected : Bool
  force_idr : Bool
  config_sent : Bool
deriving DecidableEq, Repr

/-- An encoder output (`EncodedOutput`). -/
structure EncOutput where
  nal_data : List Nat
  is_keyframe : Bool
  config_nals : Option (List Nat)
deriving DecidableEq, Repr

/-- Result of `encoder.encode_frame` for one acquired frame. -/
inductive EncodeResult where
  | errE
  | noneE
  | someE (out : EncOutput)
deriving DecidableEq, Repr

/-- The metadata fields of an acquired frame that the loop body reads. -/
structure FrameMeta where
  timestamp_ns : Nat
  is_idr : Nat
deriving DecidableEq, Repr

/-- Environment of one loop iteration: the session events drained this
iteration and, if `try_acquire_frame` yielded a frame, its metadata
together with the encoder's response to it. -/
structure IterInput where
  events : List ServerEvent
  acquired : Option (FrameMeta × EncodeResult)
deriving DecidableEq, Repr

/-- Observable calls made by one iteration: the payloads passed to
`set_video_config_nals`, the `(timestamp, nal_data, is_keyframe)` triples
passed to `send_video_nal`, and the `force_idr` arguments passed to
`encode_frame`. -/
structure IterCalls where
  config_calls : List (List Nat)
  send_calls : List (Nat × List Nat × Bool)
  encode_args : List Bool
deriving DecidableEq, Repr

/-- Event handling of the steady-state loop (`while let Ok(event) =
event_receiver.try_recv()`). -/
def handleEvent (s : LoopState) (ev : ServerEvent) : LoopState :=
  match ev with
  | .clientConnected => { s with client_connected := true, force_idr := true }
  | .clientDisconnected => { s with client_connected := false }
  | .requestIdr => { s with force_idr := true }
  | .other => s

/-- Drain all pending events. -/
def processEvents (s : LoopState) (evs : List ServerEvent) : LoopState :=
  evs.foldl handleEvent s

/-- One steady-state iteration of `run_bridge`: drain events; on an
acquired frame call the encoder with `force_idr || header.is_idr != 0`;
on an encoder output, send the config NALs once (keyframe with
`config_nals`, latch not yet set), send the NAL data if a client is
connected, and clear `force_idr`; on `None` or an error change nothing
else. -/
def loop_iter (s : LoopState) (inp : IterInput) : LoopState × IterCalls :=
  let s1 := processEvents s inp.events
  match inp.acquired with
  | none => (s1, ⟨[], [], []⟩)
  | some (meta, res) =>
    let arg := s1.force_idr || decide (meta.is_idr ≠ 0)
    match res with
    | .someE out =>
      let cfg :=
        if out.is_keyframe then
          match out.config_nals with
          | some cn => if ¬ s1.config_sent then ([cn], true) else ([], s1.config_sent)
          | none => ([], s1.config_sent)
        else ([], s1.config_sent)
      let sends :=
        if s1.client_connected then [(meta.timestamp_ns, out.nal_data, out.is_keyframe)] else []
      ({ s1 with config_sent := cfg.2, force_idr := false }, ⟨cfg.1, sends, [arg]⟩)
    | .noneE => (s1, ⟨[], [], [arg]⟩)
    | .errE => (s1, ⟨[], [], [arg]⟩)

/-- A run of the steady-state loop over a sequence of iteration
environments, collecting the per-iteration calls. -/
def run_loop : LoopState → List IterInput → LoopState × List IterCalls
  | s, [] => (s, [])
  | s, inp :: rest =>
    let r1 := loop_iter s inp
    let r2 := run_loop r1.1 rest
    (r2.1, r1.2 :: r2.2)

/-- Whether an iteration's encoder response is an output that is a
keyframe carrying `config_nals`. -/
def keyframeCfg (inp : IterInput) : Bool :=
  match inp.acquired with
  | some (_, .someE out) => out.is_keyframe && out.config_nals.isSome
  | _ => false

/-- Whether an iteration's encoder response is an output at all. -/
def producedOutput (inp : IterInput) : Bool :=
  match inp.acquired with
  | some (_, .someE _) => true
  | _ => false

/-! ## C8: layout arithmetic -/

/-- C8: `total_size()` equals
`align_up(sizeof(SharedMemoryHeader), 4096) + NUM_BUFFERS * MAX_FRAME_SIZE`
with `NUM_BUFFERS = 3` and `MAX_FRAME_SIZE = 4096 * 2048 * 4`, and
`frame_offset(i) = align_up(sizeof(SharedMemoryHeader), 4096) +
i * MAX_FRAME_SIZE` for every `i ≤ NUM_BUFFERS`. -/
theorem C8_layout :
    total_size = align_up_4096 sharedMemoryHeaderSize + NUM_BUFFERS * MAX_FRAME_SIZE
    ∧ NUM_BUFFERS = 3
    ∧ MAX_FRAME_SIZE = 4096 * 2048 * 4
    ∧ ∀ i, i ≤ NUM_BUFFERS →
        frame_offset i = align_up_4096 sharedMemoryHeaderSize + i * MAX_FRAME_SIZE := by
  refine ⟨rfl, rfl, rfl, fun i _ => rfl⟩

/-- Witness for C8 at the boundary index `i = NUM_BUFFERS`. -/
theorem C8_layout_witness :
    frame_offset 3 = align_up_4096 sharedMemoryHeaderSize + 3 * MAX_FRAME_SIZE :=
  C8_layout.2.2.2 3 (by decide)

/-! ## C1: solid red 2×2 conversion -/

/-- Counterexample to C1: on a concrete 2×2 solid red input the contractual
integer arithmetic produces Y entries equal to 82
(`((66*255 + 128) >> 8) + 16 = 66 + 16 = 82`), not 81 as claimed; U = 90
and V = 240 are as claimed. -/
theorem C1_counterexample :
    encodeConvert 2 2 (red2x2 255 255 255 255) = some ⟨[82, 82, 82, 82], [90], [240]⟩
    ∧ (82 : Nat) ≠ 81 := by
  exact ⟨by decide, by decide⟩

/-- C1 (amended): for every 2×2 BGRA input of solid red pixels
`(B, G, R) = (0, 0, 255)` with any alpha bytes, `bgra_to_i420` produces
planes in which every Y entry equals 82, every U entry equals 90 and every
V entry equals 240, computed by the contractual integer arithmetic
(constants, `+128` rounding bias, arithmetic `>> 8`, then clamp). -/
theorem C1_red2x2 (a1 a2 a3 a4 : Nat) :
    encodeConvert 2 2 (red2x2 a1 a2 a3 a4) = some ⟨[82, 82, 82, 82], [90], [240]⟩ := rfl

/-! ## Lemmas about `avcc_to_annexb` -/

theorem be32val_be32 (L : Nat) (h : L < 4294967296) :
    be32val (L / 16777216 % 256) (L / 65536 % 256) (L / 256 % 256) (L % 256) = L := by
  unfold be32val
  omega

theorem avcc_to_annexb_nil : avcc_to_annexb [] = [] := by
  simp [avcc_to_annexb]

/-- Unfolding of the walk across one well-formed leading record. -/
theorem annexb_encode_append (ps : List (List Nat)) (tail : List Nat)
    (hlen : ∀ p ∈ ps, p.length < 4294967296) :
    avcc_to_annexb (encodeRecords ps ++ tail) = framed ps ++ avcc_to_annexb tail := by
  induction ps with
  | nil => simp [encodeRecords, framed]
  | cons p ps ih =>
    have hp : p.length < 4294967296 := hlen p (List.mem_cons_self p ps)
    have hps : ∀ q ∈ ps, q.length < 4294967296 := fun q hq => hlen q (List.mem_cons_of_mem p hq)
    have hval := be32val_be32 p.length hp
    rw [encodeRecords]
    rw [show be32 p.length ++ p ++ encodeRecords ps ++ tail
        = (p.length / 16777216 % 256) :: (p.length / 65536 % 256) :: (p.length / 256 % 256)
          :: (p.length % 256) :: (p ++ (encodeRecords ps ++ tail)) from by
      simp [be32]]
    rw [avcc_to_annexb, hval]
    rw [if_pos (by simp)]
    rw [List.take_left, List.drop_left, ih hps]
    simp [framed]

/-- A malformed leading record (length prefix exceeding the remaining
bytes) produces no output at all. -/
theorem annexb_stops (L : Nat) (rest : List Nat) (hL : L < 4294967296)
    (hshort : rest.length < L) :
    avcc_to_annexb (be32 L ++ rest) = [] := by
  have hval := be32val_be32 L hL
  rw [show be32 L ++ rest
      = (L / 16777216 % 256) :: (L / 65536 % 256) :: (L / 256 % 256) :: (L % 256) :: rest from by
    simp [be32]]
  rw [avcc_to_annexb, hval, if_neg (by omega)]

/-- C6: for every input consisting of well-formed records followed by a
record whose 4-byte big-endian length `L` exceeds the remaining bytes,
`avcc_to_annexb` stops at that record and its output is exactly the
start-code framing of the preceding well-formed records; the malformed
record and everything after it contribute nothing. -/
theorem C6_truncation (ps : List (List Nat)) (L : Nat) (rest : List Nat)
    (hlen : ∀ p ∈ ps, p.length < 4294967296) (hL : L < 4294967296)
    (hshort : rest.length < L) :
    avcc_to_annexb (encodeRecords ps ++ (be32 L ++ rest)) = framed ps := by
  rw [annexb_encode_append ps _ hlen, annexb_stops L rest hL hshort, List.append_nil]

/-- Witness for C6: two well-formed records, then a record announcing 5
payload bytes with only 2 remaining. -/
theorem C6_truncation_witness :
    avcc_to_annexb (encodeRecords [[7], [8, 9]] ++ (be32 5 ++ [1, 2])) = framed [[7], [8, 9]] :=
  C6_truncation [[7], [8, 9]] 5 [1, 2] (by decide) (by decide) (by decide)

theorem framed_length (ps : List (List Nat)) :
    (framed ps).length = (ps.map (fun p => 4 + p.length)).sum := by
  induction ps with
  | nil => simp [framed]
  | cons p ps ih => simp [framed, NAL_START_CODE, ih]; omega

theorem encodeRecords_length (ps : List (List Nat)) :
    (encodeRecords ps).length = (ps.map (fun p => 4 + p.length)).sum := by
  induction ps with
  | nil => simp [encodeRecords]
  | cons p ps ih => simp [encodeRecords, be32, ih]; omega

/-- The output length equals the total framed length of the records the
walk consumes. -/
theorem annexb_length_eq : (l : List Nat) →
    (avcc_to_annexb l).length = ((parseRecords l).map (fun p => 4 + p.length)).sum
  | a :: b :: c :: d :: rest => by
    rw [avcc_to_annexb, parseRecords]
    by_cases hc : be32val a b c d ≤ rest.length
    · rw [if_pos hc, if_pos hc]
      rw [List.length_append, List.length_append,
        annexb_length_eq (rest.drop (be32val a b c d))]
      simp [NAL_START_CODE, List.length_take]
    · rw [if_neg hc, if_neg hc]; simp
  | [] => by simp [avcc_to_annexb, parseRecords]
  | [a] => by simp [avcc_to_annexb, parseRecords]
  | [a, b] => by simp [avcc_to_annexb, parseRecords]
  | [a, b, c] => by simp [avcc_to_annexb, parseRecords]
termination_by l => l.length
decreasing_by simp; omega

/-- C10: for every input, the output length of `avcc_to_annexb` equals the
total length of the well-formed records it consumed, each record of
payload length `L` contributing exactly `4 + L` bytes; in particular a
fully well-formed input yields an output of exactly the input's length. -/
theorem C10_length_preservation :
    (∀ l : List Nat,
      (avcc_to_annexb l).length = ((parseRecords l).map (fun p => 4 + p.length)).sum)
    ∧ ∀ ps : List (List Nat), (∀ p ∈ ps, p.length < 4294967296) →
        (avcc_to_annexb (encodeRecords ps)).length = (encodeRecords ps).length := by
  refine ⟨annexb_length_eq, fun ps hlen => ?_⟩
  have h1 : avcc_to_annexb (encodeRecords ps) = framed ps := by
    have := annexb_encode_append ps [] hlen
    rwa [List.append_nil, avcc_to_annexb_nil, List.append_nil] at this
  rw [h1, framed_length, encodeRecords_length]

/-- Witness for C10 on a concrete fully well-formed input. -/
theorem C10_length_preservation_witness :
    (avcc_to_annexb (encodeRecords [[7, 8]])).length = (encodeRecords [[7, 8]]).length :=
  C10_length_preservation.2 [[7, 8]] (by decide)

/-! ## Lemmas about splitting on the start code -/

theorem annexb_encode (ps : List (List Nat)) (hlen : ∀ p ∈ ps, p.length < 4294967296) :
    avcc_to_annexb (encodeRecords ps) = framed ps := by
  have := annexb_encode_append ps [] hlen
  rwa [List.append_nil, avcc_to_annexb_nil, List.append_nil] at this

theorem hasSep_cons (x : Nat) (rest : List Nat) (h : hasSep (x :: rest) = false) :
    ¬(x = 0 ∧ rest.take 3 = [0, 0, 1]) ∧ hasSep rest = false := by
  by_cases hcc : x = 0 ∧ rest.take 3 = [0, 0, 1]
  · rw [hasSep, if_pos hcc] at h
    simp at h
  · rw [hasSep, if_neg hcc] at h
    exact ⟨hcc, h⟩

/-- A byte string with no embedded start code is a single segment. -/
theorem splitSep_noSep : ∀ p : List Nat, hasSep p = false → splitSep p = [p]
  | [], _ => by simp [splitSep]
  | x :: rest, h => by
    have hc := hasSep_cons x rest h
    rw [splitSep, if_neg hc.1, splitSep_noSep rest hc.2]

/-- A leftmost start-code match cannot straddle the boundary between a
separator-free chunk and a following start code. -/
theorem take3_append_sep (p' rest : List Nat)
    (h : (p' ++ 0 :: 0 :: 0 :: 1 :: rest).take 3 = [0, 0, 1]) : p'.take 3 = [0, 0, 1] := by
  match p' with
  | [] => simp at h
  | [a] => simp at h
  | [a, b] => simp at h
  | a :: b :: c :: tl => simpa using h

/-- Splitting a separator-free chunk followed by a start code peels off
exactly that chunk. -/
theorem splitSep_sep_append : ∀ p rest : List Nat, hasSep p = false →
    splitSep (p ++ 0 :: 0 :: 0 :: 1 :: rest) = p :: splitSep rest
  | [], rest, _ => by
    rw [List.nil_append, splitSep, if_pos (by simp)]
    simp
  | x :: p', rest, h => by
    have hc := hasSep_cons x p' h
    have hcond : ¬(x = 0 ∧ (p' ++ 0 :: 0 :: 0 :: 1 :: rest).take 3 = [0, 0, 1]) := by
      rintro ⟨hx, ht⟩
      exact hc.1 ⟨hx, take3_append_sep p' rest ht⟩
    rw [List.cons_append, splitSep, if_neg hcond, splitSep_sep_append p' rest hc.2]

/-- Splitting a separator-free chunk followed by framed separator-free
payloads yields the chunk and then the payloads. -/
theorem splitSep_framed : ∀ (ps : List (List Nat)) (p : List Nat), hasSep p = false →
    (∀ q ∈ ps, hasSep q = false) → splitSep (p ++ framed ps) = p :: ps
  | [], p, hp, _ => by rw [framed, List.append_nil, splitSep_noSep p hp]
  | q :: ps, p, hp, hqs => by
    have hshape : p ++ framed (q :: ps) = p ++ 0 :: 0 :: 0 :: 1 :: (q ++ framed ps) := by
      simp [framed, NAL_START_CODE]
    rw [hshape, splitSep_sep_append p _ hp,
      splitSep_framed ps q (hqs q (List.mem_cons_self q ps))
        (fun r hr => hqs r (List.mem_cons_of_mem q hr))]

/-- Counterexample to C5: the single record whose payload is the start
code itself (`[len = 4][00 00 00 01]`) has consistent lengths, yet
splitting the reformatter's output on the separator yields two empty
payloads, not the original payload. -/
theorem C5_counterexample :
    nalUnits (avcc_to_annexb (encodeRecords [[0, 0, 0, 1]])) = [[], []]
    ∧ ([[], []] : List (List Nat)) ≠ [[0, 0, 0, 1]] := by
  constructor
  · simp [encodeRecords, be32, avcc_to_annexb, be32val, NAL_START_CODE, nalUnits, splitSep]
  · decide

/-- C5 (amended): for every concatenation of `[len32][payload]` records
with consistent lengths in which no payload contains the 4-byte start
code `00 00 00 01` as a contiguous substring, splitting the output of
`avcc_to_annexb` on the separator yields exactly the original payloads,
in order. -/
theorem C5_roundtrip (ps : List (List Nat))
    (h32 : ∀ p ∈ ps, p.length < 4294967296)
    (hns : ∀ p ∈ ps, hasSep p = false) :
    nalUnits (avcc_to_annexb (encodeRecords ps)) = ps := by
  rw [annexb_encode ps h32, nalUnits]
  have h2 : splitSep (framed ps) = [] :: ps := by
    have := splitSep_framed ps [] rfl hns
    simpa using this
  rw [h2, List.drop_one, List.tail_cons]

/-- Witness for C5 on two concrete records. -/
theorem C5_roundtrip_witness :
    nalUnits (avcc_to_annexb (encodeRecords [[7], [8, 9]])) = [[7], [8, 9]] :=
  C5_roundtrip [[7], [8, 9]] (by decide) (by decide)

/-! ## Lemmas about `try_acquire_frame` -/

theorem frame_offset_eq (n : Nat) : frame_offset n = 4096 + n * 33554432 := by
  simp [frame_offset, align_up_4096, sharedMemoryHeaderSize, frameHeaderRawSize, NUM_BUFFERS,
    MAX_FRAME_SIZE, MAX_WIDTH, MAX_HEIGHT, BYTES_PER_PIXEL]

theorem total_size_eq : total_size = 100667392 := by
  rw [total_size, frame_offset_eq]
  simp [NUM_BUFFERS]

/-- If no slot is `READY`, the scan fails every compare-exchange and
leaves every slot untouched. -/
theorem try_acquire_aux_none (m : Nat) : ∀ (hs : List FrameHeaderRawM) (i : Nat),
    (∀ x ∈ hs, x.state ≠ READY) → try_acquire_aux m hs i = .ok (hs, none)
  | [], _, _ => rfl
  | h :: rest, i, hall => by
    have hh : h.state ≠ READY := hall h (List.mem_cons_self h rest)
    rw [try_acquire_aux, if_neg hh,
      try_acquire_aux_none m rest (i + 1) (fun x hx => hall x (List.mem_cons_of_mem h hx))]

/-- The scan acquires the first `READY` slot: the compare-exchange
succeeds there, the slot becomes `ENCODING`, and the result carries that
slot's absolute index, its snapshot, and the slice view — or a panic when
the slice bounds check fails. -/
theorem try_acquire_aux_found (m : Nat) :
    ∀ (pre : List FrameHeaderRawM) (hd : FrameHeaderRawM) (post : List FrameHeaderRawM) (i : Nat),
    (∀ x ∈ pre, x.state ≠ READY) → hd.state = READY →
    try_acquire_aux m (pre ++ hd :: post) i =
      match sliceView m (frame_offset (i + pre.length)) (frameSizeC (FrameHeaderC.from_raw hd)) with
      | some view => .ok (pre ++ { hd with state := ENCODING } :: post,
                          some (i + pre.length, FrameHeaderC.from_raw hd, view))
      | none => .error ()
  | [], hd, post, i, _, hhd => by
    rw [List.nil_append, try_acquire_aux, if_pos hhd]
    simp
  | x :: pre, hd, post, i, hall, hhd => by
    have hx : x.state ≠ READY := hall x (List.mem_cons_self x pre)
    have hrec := try_acquire_aux_found m pre hd post (i + 1)
      (fun z hz => hall z (List.mem_cons_of_mem x hz)) hhd
    rw [List.cons_append, try_acquire_aux, if_neg hx, hrec]
    have hidx : i + 1 + pre.length = i + (x :: pre).length := by
      simp only [List.length_cons]
      omega
    rw [hidx]
    cases sliceView m (frame_offset (i + (x :: pre).length)) (frameSizeC (FrameHeaderC.from_raw hd)) with
    | some view => rfl
    | none => rfl

/-- C4 (amended): `try_acquire_frame` scans buffers `0..NUM_BUFFERS` in
ascending order, compare-exchanging `Ready → Encoding`.  On a ring where
every buffer is `Empty` it returns `None` and mutates nothing.  On a
full-size ring with exactly one `Ready` buffer satisfying the documented
invariant `height·stride ≤ MAX_FRAME_SIZE`, it returns that buffer's
index, a by-value snapshot of its metadata and the pixel slice of length
`height·stride` starting at `frame_offset(i)`, with that buffer's state
now `Encoding`.  (Without the size invariant the slice construction can
panic — see the counterexample.) -/
theorem C4_acquire (s : SharedMemoryM) :
    ((∀ x ∈ s.frame_headers, x.state = EMPTY) → try_acquire_frame s = .ok (s, none))
    ∧ ∀ pre hd post, s.frame_headers = pre ++ hd :: post →
        (∀ x ∈ pre, x.state ≠ READY) → (∀ x ∈ post, x.state ≠ READY) →
        hd.state = READY →
        hd.height * hd.stride ≤ MAX_FRAME_SIZE →
        pre.length + 1 + post.length = NUM_BUFFERS →
        s.mmapLen = total_size →
        try_acquire_frame s =
          .ok ({ s with frame_headers := pre ++ { hd with state := ENCODING } :: post },
               some (pre.length, FrameHeaderC.from_raw hd,
                     (frame_offset pre.length, hd.height * hd.stride))) := by
  constructor
  · intro hall
    unfold try_acquire_frame
    rw [try_acquire_aux_none s.mmapLen s.frame_headers 0
      (fun x hx => by rw [hall x hx]; decide)]
  · intro pre hd post hdec hpre hpost hhd hsize hlen hml
    unfold try_acquire_frame
    rw [hdec, try_acquire_aux_found s.mmapLen pre hd post 0 hpre hhd]
    have hsz : frameSizeC (FrameHeaderC.from_raw hd) = hd.height * hd.stride := by
      unfold frameSizeC FrameHeaderC.from_raw
      exact Nat.mod_eq_of_lt (lt_of_le_of_lt hsize (by decide))
    have hpl : pre.length ≤ 2 := by
      have := hlen
      simp [NUM_BUFFERS] at this
      omega
    have hbound : frame_offset pre.length + frameSizeC (FrameHeaderC.from_raw hd)
        ≤ s.mmapLen := by
      rw [hsz, hml, total_size_eq, frame_offset_eq]
      have hms : hd.height * hd.stride ≤ 33554432 := hsize
      omega
    rw [show sliceView s.mmapLen (frame_offset (0 + pre.length))
          (frameSizeC (FrameHeaderC.from_raw hd))
        = some (frame_offset (0 + pre.length), frameSizeC (FrameHeaderC.from_raw hd)) from by
      simp [sliceView, hbound]]
    rw [hsz]
    simp

/-- Counterexample to C4 as stated: on a full-size ring whose only
`Ready` buffer (the last one) has `height·stride = MAX_FRAME_SIZE + 1`,
`try_acquire_frame` does not return that buffer — the slice bounds check
fails, i.e. the Rust code panics with an out-of-range slice index. -/
theorem C4_counterexample :
    try_acquire_frame ⟨[emptyHdr, emptyHdr, oversizedHdr], total_size⟩ = .error ()
    ∧ oversizedHdr.state = READY ∧ emptyHdr.state = EMPTY
    ∧ MAX_FRAME_SIZE < oversizedHdr.height * oversizedHdr.stride := by
  exact ⟨rfl, rfl, rfl, by decide⟩

/-- Witness for C4: the all-`Empty` ring yields `none` without mutation,
and a ring whose single `Ready` buffer is within bounds is acquired. -/
theorem C4_acquire_witness :
    try_acquire_frame ⟨[emptyHdr, emptyHdr, emptyHdr], total_size⟩
      = .ok (⟨[emptyHdr, emptyHdr, emptyHdr], total_size⟩, none)
    ∧ try_acquire_frame ⟨[emptyHdr, readyHdr, emptyHdr], total_size⟩
      = .ok (⟨[emptyHdr, ⟨3, 64, 64, 256, 5, 6, 1, [7]⟩, emptyHdr], total_size⟩,
             some (1, ⟨64, 64, 256, 5, 6, 1, [7]⟩, (frame_offset 1, 16384))) :=
  ⟨(C4_acquire _).1 (by decide),
   (C4_acquire _).2 [emptyHdr] readyHdr [emptyHdr] rfl (by decide) (by decide) rfl
     (by decide) (by decide) rfl⟩

/-- Counterexample to C3: on a full-size ring whose first buffer is
`Ready` with `height·stride = MAX_FRAME_SIZE + 1`, `try_acquire_frame`
does not skip the buffer: it returns it, mutates its state to `Encoding`,
and hands out a slice view extending past that buffer's pixel region (no
protocol-violation logging exists in the scan). -/
theorem C3_counterexample :
    try_acquire_frame ⟨[oversizedHdr, emptyHdr, emptyHdr], total_size⟩ =
      .ok (⟨[⟨3, 1, 1, 33554433, 0, 0, 0, []⟩, emptyHdr, emptyHdr], total_size⟩,
           some (0, ⟨1, 1, 33554433, 0, 0, 0, []⟩, (4096, 33554433)))
    ∧ MAX_FRAME_SIZE < oversizedHdr.height * oversizedHdr.stride := by
  exact ⟨rfl, by decide⟩

/-- C3 (amended): `try_acquire_frame` performs no size validation and no
logging.  A `Ready` buffer whose `height · stride > MAX_FRAME_SIZE` is
never skipped: when it is the first `Ready` buffer its state is
compare-exchanged to `Encoding` and it is returned with a pixel slice of
`height · stride` bytes (which extends beyond that buffer's region) if
the slice stays inside the mapping, and otherwise the slice construction
panics with an out-of-bounds index. -/
theorem C3_no_validation (s : SharedMemoryM) (pre : List FrameHeaderRawM)
    (hd : FrameHeaderRawM) (post : List FrameHeaderRawM)
    (hdec : s.frame_headers = pre ++ hd :: post)
    (hpre : ∀ x ∈ pre, x.state ≠ READY)
    (hhd : hd.state = READY)
    (hover : MAX_FRAME_SIZE < hd.height * hd.stride)
    (h32 : hd.height * hd.stride < 4294967296) :
    try_acquire_frame s =
      if frame_offset pre.length + hd.height * hd.stride ≤ s.mmapLen then
        .ok ({ s with frame_headers := pre ++ { hd with state := ENCODING } :: post },
             some (pre.length, FrameHeaderC.from_raw hd,
                   (frame_offset pre.length, hd.height * hd.stride)))
      else .error () := by
  unfold try_acquire_frame
  rw [hdec, try_acquire_aux_found s.mmapLen pre hd post 0 hpre hhd]
  have hsz : frameSizeC (FrameHeaderC.from_raw hd) = hd.height * hd.stride := by
    unfold frameSizeC FrameHeaderC.from_raw
    exact Nat.mod_eq_of_lt h32
  rw [hsz]
  by_cases hb : frame_offset pre.length + hd.height * hd.stride ≤ s.mmapLen
  · rw [show sliceView s.mmapLen (frame_offset (0 + pre.length)) (hd.height * hd.stride)
        = some (frame_offset (0 + pre.length), hd.height * hd.stride) from by
      simp [sliceView, hb]]
    rw [if_pos hb]
    simp
  · rw [show sliceView s.mmapLen (frame_offset (0 + pre.length)) (hd.height * hd.stride)
        = none from by
      simp [sliceView]
      omega]
    rw [if_neg hb]

/-- Witness for C3 on a ring whose second buffer is the oversized `Ready`
one: it is acquired, not skipped. -/
theorem C3_no_validation_witness :
    try_acquire_frame ⟨[emptyHdr, oversizedHdr, emptyHdr], total_size⟩ =
      .ok (⟨[emptyHdr, ⟨3, 1, 1, 33554433, 0, 0, 0, []⟩, emptyHdr], total_size⟩,
           some (1, ⟨1, 1, 33554433, 0, 0, 0, []⟩, (frame_offset 1, 33554433))) :=
  C3_no_validation ⟨[emptyHdr, oversizedHdr, emptyHdr], total_size⟩ [emptyHdr] oversizedHdr
    [emptyHdr] rfl (by decide) rfl (by decide) (by decide)

/-! ## Lemmas about the bridge loop -/

theorem processEvents_config_sent (evs : List ServerEvent) :
    ∀ s : LoopState, (processEvents s evs).config_sent = s.config_sent := by
  induction evs with
  | nil => intro s; rfl
  | cons ev evs ih =>
    intro s
    rw [processEvents, List.foldl_cons]
    rw [show List.foldl handleEvent (handleEvent s ev) evs
        = processEvents (handleEvent s ev) evs from rfl, ih]
    cases ev <;> rfl

/-- One iteration sets `config_sent` exactly when the encoder produced a
keyframe output carrying `config_nals` (and keeps it once set). -/
theorem loop_iter_config_sent (s : LoopState) (inp : IterInput) :
    (loop_iter s inp).1.config_sent = (s.config_sent || keyframeCfg inp) := by
  obtain ⟨evs, acq⟩ := inp
  rw [loop_iter]
  cases acq with
  | none => simp [keyframeCfg, processEvents_config_sent]
  | some v =>
    obtain ⟨meta, res⟩ := v
    cases res with
    | errE => simp [keyframeCfg, processEvents_config_sent]
    | noneE => simp [keyframeCfg, processEvents_config_sent]
    | someE out =>
      cases hk : out.is_keyframe with
      | false => simp [keyframeCfg, processEvents_config_sent, hk]
      | true =>
        cases hcn : out.config_nals with
        | none => simp [keyframeCfg, processEvents_config_sent, hk, hcn]
        | some cn =>
          cases hcs : s.config_sent with
          | false => simp [keyframeCfg, processEvents_config_sent, hk, hcn, hcs]
          | true => simp [keyframeCfg, processEvents_config_sent, hk, hcn, hcs]

/-- One iteration calls `set_video_config_nals` exactly once when the
encoder produced a keyframe output carrying `config_nals` and the latch
was still clear, and never otherwise. -/
theorem loop_iter_config_calls (s : LoopState) (inp : IterInput) :
    (loop_iter s inp).2.config_calls.length
      = (if keyframeCfg inp && !s.config_sent then 1 else 0) := by
  obtain ⟨evs, acq⟩ := inp
  rw [loop_iter]
  cases acq with
  | none => simp [keyframeCfg]
  | some v =>
    obtain ⟨meta, res⟩ := v
    cases res with
    | errE => simp [keyframeCfg]
    | noneE => simp [keyframeCfg]
    | someE out =>
      cases hk : out.is_keyframe with
      | false => simp [keyframeCfg, hk]
      | true =>
        cases hcn : out.config_nals with
        | none => simp [keyframeCfg, hk, hcn]
        | some cn =>
          cases hcs : s.config_sent with
          | false => simp [keyframeCfg, hk, hcn, processEvents_config_sent, hcs]
          | true => simp [keyframeCfg, hk, hcn, processEvents_config_sent, hcs]

/-- `force_idr` after one iteration: cleared exactly when the encoder
returned an output, otherwise the value after event draining. -/
theorem loop_iter_force_idr (s : LoopState) (inp : IterInput) :
    (loop_iter s inp).1.force_idr
      = (if producedOutput inp then false else (processEvents s inp.events).force_idr) := by
  obtain ⟨evs, acq⟩ := inp
  rw [loop_iter]
  cases acq with
  | none => simp [producedOutput]
  | some v =>
    obtain ⟨meta, res⟩ := v
    cases res with
    | errE => simp [producedOutput]
    | noneE => simp [producedOutput]
    | someE out => simp [producedOutput]

/-- No `send_video_nal` call is made in an iteration whose drained state
has no connected client. -/
theorem loop_iter_send_calls (s : LoopState) (inp : IterInput)
    (hnc : (processEvents s inp.events).client_connected = false) :
    (loop_iter s inp).2.send_calls = [] := by
  obtain ⟨evs, acq⟩ := inp
  rw [loop_iter]
  cases acq with
  | none => rfl
  | some v =>
    obtain ⟨meta, res⟩ := v
    cases res with
    | errE => rfl
    | noneE => rfl
    | someE out => simp [hnc]

/-- Counterexample to C2: a steady-state iteration with no client
connected and no events, in which the encoder returns an output.  No
`send_video_nal` call occurs, but `force_idr` — `true` before the
iteration — is `false` after it: the latch is cleared by the mere
production of an encoder output, not by its consumption by a connected
client. -/
theorem C2_counterexample :
    (loop_iter ⟨false, true, true⟩ ⟨[], some (⟨0, 0⟩, .someE ⟨[7], false, none⟩)⟩).2.send_calls = []
    ∧ (loop_iter ⟨false, true, true⟩ ⟨[], some (⟨0, 0⟩, .someE ⟨[7], false, none⟩)⟩).1.force_idr
        = false
    ∧ (⟨false, true, true⟩ : LoopState).client_connected = false
    ∧ (⟨false, true, true⟩ : LoopState).force_idr = true := by
  exact ⟨rfl, rfl, rfl, rfl⟩

/-- C2 (amended): in every steady-state iteration in which no client is
connected (after event draining), no `send_video_nal` call occurs; but
`force_idr` is cleared whenever the encoder returns an output — even
though the output was not sent to any client — and keeps its drained
value when the encoder returns nothing or fails. -/
theorem C2_no_client (s : LoopState) (inp : IterInput)
    (hnc : (processEvents s inp.events).client_connected = false) :
    (loop_iter s inp).2.send_calls = []
    ∧ (loop_iter s inp).1.force_idr
        = (if producedOutput inp then false else (processEvents s inp.events).force_idr) :=
  ⟨loop_iter_send_calls s inp hnc, loop_iter_force_idr s inp⟩

/-- Witness for C2: a disconnected iteration whose encoder yields no
output keeps `force_idr` set and sends nothing. -/
theorem C2_no_client_witness :
    (loop_iter ⟨false, true, false⟩ ⟨[.requestIdr], some (⟨3, 0⟩, .noneE)⟩).2.send_calls = []
    ∧ (loop_iter ⟨false, true, false⟩ ⟨[.requestIdr], some (⟨3, 0⟩, .noneE)⟩).1.force_idr
        = (if producedOutput ⟨[.requestIdr], some (⟨3, 0⟩, .noneE)⟩ then false
           else (processEvents ⟨false, true, false⟩ [.requestIdr]).force_idr) :=
  C2_no_client ⟨false, true, false⟩ ⟨[.requestIdr], some (⟨3, 0⟩, .noneE)⟩ rfl

/-! ## Lemmas about whole runs of the loop -/

theorem run_loop_config_sent (inputs : List IterInput) :
    ∀ s : LoopState, (run_loop s inputs).1.config_sent
      = (s.config_sent || inputs.any keyframeCfg) := by
  induction inputs with
  | nil => intro s; simp [run_loop]
  | cons inp rest ih =>
    intro s
    rw [run_loop]
    simp only [List.any_cons]
    rw [ih (loop_iter s inp).1, loop_iter_config_sent]
    cases s.config_sent <;> cases keyframeCfg inp <;> simp

theorem run_loop_config_count (inputs : List IterInput) :
    ∀ s : LoopState, (((run_loop s inputs).2.map fun c => c.config_calls.length).sum)
      = (if s.config_sent then 0 else if inputs.any keyframeCfg then 1 else 0) := by
  induction inputs with
  | nil => intro s; cases hcs : s.config_sent <;> simp [run_loop]
  | cons inp rest ih =>
    intro s
    rw [run_loop]
    simp only [List.map_cons, List.sum_cons, List.any_cons]
    rw [ih (loop_iter s inp).1, loop_iter_config_calls, loop_iter_config_sent]
    cases hcs : s.config_sent with
    | true => simp
    | false =>
      rcases Bool.dichotomy (keyframeCfg inp) with hkf | hkf <;> simp [hkf]

theorem run_loop_append (l1 l2 : List IterInput) :
    ∀ s : LoopState, run_loop s (l1 ++ l2)
      = ((run_loop (run_loop s l1).1 l2).1,
         (run_loop s l1).2 ++ (run_loop (run_loop s l1).1 l2).2) := by
  induction l1 with
  | nil => intro s; simp [run_loop]
  | cons inp rest ih =>
    intro s
    rw [List.cons_append, run_loop, ih (loop_iter s inp).1, run_loop]
    simp

/-- C7: across a whole run of the bridge loop started with the
`config_sent` latch clear, `set_video_config_nals` is invoked exactly
once if some iteration's encoder output is a keyframe carrying
`config_nals` and never otherwise; the iteration that invokes it is
exactly the first such iteration (later keyframe outputs never invoke it
again); and once such an iteration has occurred the latch is true for the
rest of the run, whatever follows. -/
theorem C7_config_once (s0 : LoopState) (inputs : List IterInput)
    (h0 : s0.config_sent = false) :
    (((run_loop s0 inputs).2.map fun c => c.config_calls.length).sum
        = if inputs.any keyframeCfg then 1 else 0)
    ∧ (∀ pre inp post, inputs = pre ++ inp :: post →
        (run_loop s0 inputs).2
          = (run_loop s0 pre).2
            ++ (loop_iter (run_loop s0 pre).1 inp).2
            :: (run_loop (loop_iter (run_loop s0 pre).1 inp).1 post).2
        ∧ (loop_iter (run_loop s0 pre).1 inp).2.config_calls.length
          = (if keyframeCfg inp && !pre.any keyframeCfg then 1 else 0))
    ∧ (∀ pre suffix, inputs = pre ++ suffix → pre.any keyframeCfg = true →
        (run_loop s0 inputs).1.config_sent = true) := by
  refine ⟨?_, ?_, ?_⟩
  · rw [run_loop_config_count inputs s0, h0]
    simp
  · intro pre inp post hdec
    have hpcs : (run_loop s0 pre).1.config_sent = pre.any keyframeCfg := by
      rw [run_loop_config_sent pre s0, h0]
      simp
    constructor
    · rw [hdec, run_loop_append pre (inp :: post) s0]
      simp [run_loop]
    · rw [loop_iter_config_calls, hpcs]
  · intro pre suffix hdec hany
    rw [hdec, run_loop_config_sent (pre ++ suffix) s0, List.any_append, hany]
    simp

/-- Witness for C7 on a concrete two-keyframe run: both outputs are
keyframes carrying `config_nals`, the total number of
`set_video_config_nals` calls is 1, the first iteration makes it and the
second does not. -/
theorem C7_config_once_witness :
    (((run_loop ⟨true, true, false⟩
        [⟨[], some (⟨1, 0⟩, .someE ⟨[5], true, some [6]⟩)⟩,
         ⟨[], some (⟨2, 0⟩, .someE ⟨[5], true, some [6]⟩)⟩]).2.map
        fun c => c.config_calls.length).sum
      = if ([⟨[], some (⟨1, 0⟩, .someE ⟨[5], true, some [6]⟩)⟩,
             ⟨[], some (⟨2, 0⟩, .someE ⟨[5], true, some [6]⟩)⟩] : List IterInput).any keyframeCfg
        then 1 else 0)
    ∧ (loop_iter (run_loop ⟨true, true, false⟩
          ([] : List IterInput)).1 ⟨[], some (⟨1, 0⟩, .someE ⟨[5], true, some [6]⟩)⟩).2.config_calls.length
      = (if keyframeCfg ⟨[], some (⟨1, 0⟩, .someE ⟨[5], true, some [6]⟩)⟩
            && !([] : List IterInput).any keyframeCfg then 1 else 0)
    ∧ (loop_iter (run_loop ⟨true, true, false⟩
          [⟨[], some (⟨1, 0⟩, .someE ⟨[5], true, some [6]⟩)⟩]).1
          ⟨[], some (⟨2, 0⟩, .someE ⟨[5], true, some [6]⟩)⟩).2.config_calls.length
      = (if keyframeCfg ⟨[], some (⟨2, 0⟩, .someE ⟨[5], true, some [6]⟩)⟩
            && !([⟨[], some (⟨1, 0⟩, .someE ⟨[5], true, some [6]⟩)⟩] : List IterInput).any keyframeCfg
         then 1 else 0) :=
  ⟨(C7_config_once ⟨true, true, false⟩ _ rfl).1,
   ((C7_config_once ⟨true, true, false⟩
      [⟨[], some (⟨1, 0⟩, .someE ⟨[5], true, some [6]⟩)⟩,
       ⟨[], some (⟨2, 0⟩, .someE ⟨[5], true, some [6]⟩)⟩] rfl).2.1 []
      ⟨[], some (⟨1, 0⟩, .someE ⟨[5], true, some [6]⟩)⟩
      [⟨[], some (⟨2, 0⟩, .someE ⟨[5], true, some [6]⟩)⟩] rfl).2,
   ((C7_config_once ⟨true, true, false⟩
      [⟨[], some (⟨1, 0⟩, .someE ⟨[5], true, some [6]⟩)⟩,
       ⟨[], some (⟨2, 0⟩, .someE ⟨[5], true, some [6]⟩)⟩] rfl).2.1
      [⟨[], some (⟨1, 0⟩, .someE ⟨[5], true, some [6]⟩)⟩]
      ⟨[], some (⟨2, 0⟩, .someE ⟨[5], true, some [6]⟩)⟩ [] rfl).2⟩

/-! ## Lemmas about `bgra_to_i420` bounds -/

/-- If every step of an `Option`-valued left fold succeeds from any state
satisfying an invariant, the whole fold succeeds and preserves the
invariant. -/
theorem foldlM_some_of_inv {α β : Type} (f : β → α → Option β) (P : β → Prop) :
    ∀ (l : List α) (b : β), P b →
    (∀ b' a, a ∈ l → P b' → ∃ b'', f b' a = some b'' ∧ P b'') →
    ∃ b'', l.foldlM f b = some b'' ∧ P b''
  | [], b, hb, _ => ⟨b, rfl, hb⟩
  | a :: l, b, hb, hstep => by
    obtain ⟨b1, hfb, hP1⟩ := hstep b a (List.mem_cons_self a l) hb
    obtain ⟨b2, hfold, hP2⟩ := foldlM_some_of_inv f P l b1 hP1
      (fun b' x hx => hstep b' x (List.mem_cons_of_mem a hx))
    refine ⟨b2, ?_, hP2⟩
    rw [List.foldlM_cons, hfb]
    exact hfold

/-- If an `Option`-valued left fold succeeds, the step succeeded at every
element (from some intermediate state). -/
theorem foldlM_mem_some {α β : Type} (f : β → α → Option β) :
    ∀ (l : List α) (b bf : β), l.foldlM f b = some bf →
    ∀ a ∈ l, ∃ b0 b1, f b0 a = some b1
  | [], _, _, _, _, ha => absurd ha (List.not_mem_nil _)
  | x :: l, b, bf, hfold, a, ha => by
    rw [List.foldlM_cons] at hfold
    cases hfb : f b x with
    | none =>
      rw [hfb] at hfold
      exact absurd hfold (by simp)
    | some b1 =>
      rw [hfb] at hfold
      rcases List.mem_cons.mp ha with rfl | hmem
      · exact ⟨b, b1, hfb⟩
      · exact foldlM_mem_some f l b1 bf hfold a hmem

theorem pix_lt {yy xx w h : Nat} (hy : yy < h) (hx : xx < w) : yy * w + xx < w * h :=
  calc yy * w + xx < yy * w + w := Nat.add_lt_add_left hx _
    _ = (yy + 1) * w := (Nat.succ_mul yy w).symm
    _ ≤ h * w := Nat.mul_le_mul_right w hy
    _ = w * h := Nat.mul_comm h w

theorem uv_lt {yy xx w h : Nat} (hw : 2 ∣ w) (hh : 2 ∣ h) (hy : yy < h) (hx : xx < w)
    (hye : yy % 2 = 0) (hxe : xx % 2 = 0) : yy / 2 * (w / 2) + xx / 2 < w * h / 4 := by
  obtain ⟨a, rfl⟩ := hw
  obtain ⟨b, rfl⟩ := hh
  have hw2 : 2 * a / 2 = a := by omega
  have hyb : yy / 2 < b := by omega
  have hxa : xx / 2 < a := by omega
  have h4 : 2 * a * (2 * b) / 4 = a * b := by
    rw [show 2 * a * (2 * b) = 4 * (a * b) from by ring]
    exact Nat.mul_div_cancel_left (a * b) (by norm_num)
  rw [hw2, h4]
  exact pix_lt hyb hxa

theorem get?_some_of_lt (l : List Nat) (i : Nat) (hi : i < l.length) :
    ∃ v, l.get? i = some v := by
  cases hg : l.get? i with
  | none =>
    rw [List.get?_eq_none] at hg
    omega
  | some v => exact ⟨v, rfl⟩

/-- One pixel step succeeds and preserves the plane sizes, for even
dimensions and an input of at least `4*w*h - 1` bytes. -/
theorem convertPixel_some {w h : Nat} (bgra : List Nat) {yy xx : Nat} (p : Planes)
    (hw : 2 ∣ w) (hh : 2 ∣ h) (hy : yy < h) (hx : xx < w)
    (hlen : 4 * (w * h) ≤ bgra.length + 1) (hp : planesInv w h p) :
    ∃ p', convertPixel w bgra yy xx p = some p' ∧ planesInv w h p' := by
  obtain ⟨hpy, hpu, hpv⟩ := hp
  have hpix : yy * w + xx < w * h := pix_lt hy hx
  have key : ∀ A M len : Nat, A < M → 4 * M ≤ len + 1 → A * 4 + 2 < len := by
    intro A M len h1 h2
    omega
  have hidx2 : (yy * w + xx) * 4 + 2 < bgra.length := key _ _ _ hpix hlen
  obtain ⟨b, hb⟩ := get?_some_of_lt bgra ((yy * w + xx) * 4) (by omega)
  obtain ⟨g, hg⟩ := get?_some_of_lt bgra ((yy * w + xx) * 4 + 1) (by omega)
  obtain ⟨r, hr⟩ := get?_some_of_lt bgra ((yy * w + xx) * 4 + 2) hidx2
  have hyset : setAt p.y (yy * w + xx) (yOfRGB (r : Int) (g : Int) (b : Int)).toNat
      = some (p.y.set (yy * w + xx) (yOfRGB (r : Int) (g : Int) (b : Int)).toNat) := by
    rw [setAt, if_pos]
    rw [hpy]
    exact hpix
  by_cases heven : yy % 2 = 0 ∧ xx % 2 = 0
  · have huv : yy / 2 * (w / 2) + xx / 2 < w * h / 4 :=
      uv_lt hw hh hy hx heven.1 heven.2
    have huset : setAt p.u (yy / 2 * (w / 2) + xx / 2)
        (uOfRGB (r : Int) (g : Int) (b : Int)).toNat
        = some (p.u.set (yy / 2 * (w / 2) + xx / 2)
            (uOfRGB (r : Int) (g : Int) (b : Int)).toNat) := by
      rw [setAt, if_pos]
      rw [hpu]
      exact huv
    have hvset : setAt p.v (yy / 2 * (w / 2) + xx / 2)
        (vOfRGB (r : Int) (g : Int) (b : Int)).toNat
        = some (p.v.set (yy / 2 * (w / 2) + xx / 2)
            (vOfRGB (r : Int) (g : Int) (b : Int)).toNat) := by
      rw [setAt, if_pos]
      rw [hpv]
      exact huv
    refine ⟨⟨p.y.set (yy * w + xx) (yOfRGB (r : Int) (g : Int) (b : Int)).toNat,
      p.u.set (yy / 2 * (w / 2) + xx / 2) (uOfRGB (r : Int) (g : Int) (b : Int)).toNat,
      p.v.set (yy / 2 * (w / 2) + xx / 2) (vOfRGB (r : Int) (g : Int) (b : Int)).toNat⟩, ?_, ?_⟩
    · rw [convertPixel, hb, hg, hr]
      show (setAt p.y _ _).bind _ = _
      rw [hyset]
      show (if yy % 2 = 0 ∧ xx % 2 = 0 then _ else _) = _
      rw [if_pos heven]
      show (setAt p.u _ _).bind _ = _
      rw [huset]
      show (setAt p.v _ _).bind _ = _
      rw [hvset]
      rfl
    · exact ⟨by simp [hpy], by simp [hpu], by simp [hpv]⟩
  · refine ⟨⟨p.y.set (yy * w + xx) (yOfRGB (r : Int) (g : Int) (b : Int)).toNat, p.u, p.v⟩,
      ?_, ?_⟩
    · rw [convertPixel, hb, hg, hr]
      show (setAt p.y _ _).bind _ = _
      rw [hyset]
      show (if yy % 2 = 0 ∧ xx % 2 = 0 then _ else _) = _
      rw [if_neg heven]
    · exact ⟨by simp [hpy], hpu, hpv⟩

/-- A successful pixel step implies the `r` read at index
`(yy*w + xx)*4 + 2` was in bounds. -/
theorem convertPixel_reads {w : Nat} (bgra : List Nat) {yy xx : Nat} (p p' : Planes)
    (h : convertPixel w bgra yy xx p = some p') :
    (yy * w + xx) * 4 + 2 < bgra.length := by
  by_contra hge
  push_neg at hge
  have hnone : bgra.get? ((yy * w + xx) * 4 + 2) = none := List.get?_eq_none.mpr hge
  rw [convertPixel] at h
  cases h1 : bgra.get? ((yy * w + xx) * 4) with
  | none =>
    rw [h1] at h
    simp at h
  | some b =>
    rw [h1] at h
    cases h2 : bgra.get? ((yy * w + xx) * 4 + 1) with
    | none =>
      rw [h2] at h
      simp at h
    | some g =>
      rw [h2, hnone] at h
      simp at h

theorem encodeConvert_isSome {w h : Nat} (bgra : List Nat)
    (hw : 2 ∣ w) (hh : 2 ∣ h) (hlen : 4 * (w * h) ≤ bgra.length + 1) :
    ∃ p', encodeConvert w h bgra = some p' ∧ planesInv w h p' := by
  unfold encodeConvert bgra_to_i420
  refine foldlM_some_of_inv _ (planesInv w h) (List.range h) (newPlanes w h)
    ⟨by simp [newPlanes], by simp [newPlanes], by simp [newPlanes]⟩ ?_
  intro p' yy hyy hp'
  exact foldlM_some_of_inv _ (planesInv w h) (List.range w) p' hp'
    (fun p'' xx hxx hp'' =>
      convertPixel_some bgra p'' hw hh (List.mem_range.mp hyy) (List.mem_range.mp hxx) hlen hp'')

theorem encodeConvert_none {w h : Nat} (bgra : List Nat)
    (hw : 0 < w) (hh : 0 < h) (hshort : bgra.length + 1 < 4 * (w * h)) :
    encodeConvert w h bgra = none := by
  cases hres : encodeConvert w h bgra with
  | none => rfl
  | some pf =>
    exfalso
    unfold encodeConvert bgra_to_i420 at hres
    obtain ⟨b0, b1, hrow⟩ := foldlM_mem_some _ (List.range h) _ pf hres (h - 1)
      (List.mem_range.mpr (by omega))
    obtain ⟨p0, p1, hpx⟩ := foldlM_mem_some _ (List.range w) _ b1 hrow (w - 1)
      (List.mem_range.mpr (by omega))
    have hread : ((h - 1) * w + (w - 1)) * 4 + 2 < bgra.length :=
      convertPixel_reads bgra p0 p1 hpx
    have hkey : (h - 1) * w + (w - 1) + 1 = w * h := by
      obtain ⟨a, rfl⟩ : ∃ a, w = a + 1 := ⟨w - 1, by omega⟩
      obtain ⟨c, rfl⟩ : ∃ c, h = c + 1 := ⟨h - 1, by omega⟩
      simp only [Nat.add_sub_cancel]
      ring
    have hfin : ∀ K M len : Nat, K + 1 = M → K * 4 + 2 < len → len + 1 < 4 * M → False := by
      intro K M len h1 h2 h3
      omega
    exact hfin _ _ _ hkey hread hshort

/-- Counterexample to C9: the claim says `bgra_to_i420` is total ONLY
when the input has at least `4*width*height` bytes, every shorter input
panicking out of bounds.  A 2×2 input of 15 bytes — one byte short — is
converted without any out-of-bounds access, because the alpha byte of the
last pixel is never read. -/
theorem C9_counterexample :
    (encodeConvert 2 2 [0, 0, 255, 9, 0, 0, 255, 9, 0, 0, 255, 9, 0, 0, 255]).isSome = true
    ∧ ([0, 0, 255, 9, 0, 0, 255, 9, 0, 0, 255, 9, 0, 0, 255] : List Nat).length < 4 * 2 * 2 := by
  exact ⟨by decide, by decide⟩

/-- C9 (amended): for even `width` and `height`, every array access in
`bgra_to_i420` (hence in `encode_frame`'s conversion step) is in bounds
as soon as the input has at least `4*width*height - 1` bytes (the final
alpha byte is never read); for positive dimensions, any input shorter
than that panics with an out-of-bounds index.  In particular the bridge,
which passes only `header.height * header.stride` bytes, violates the
precondition whenever a `Ready` frame is smaller than the configured
dimensions. -/
theorem C9_bounds (w h : Nat) (bgra : List Nat) :
    ((2 ∣ w) → (2 ∣ h) → 4 * (w * h) ≤ bgra.length + 1 →
      (encodeConvert w h bgra).isSome = true)
    ∧ (0 < w → 0 < h → bgra.length + 1 < 4 * (w * h) →
      encodeConvert w h bgra = none) := by
  constructor
  · intro hw hh hlen
    obtain ⟨p', hp', _⟩ := encodeConvert_isSome bgra hw hh hlen
    rw [hp']
    rfl
  · intro hw hh hshort
    exact encodeConvert_none bgra hw hh hshort

/-- Witness for C9: at `w = h = 2`, a 15-byte input converts fully while
a 14-byte input panics. -/
theorem C9_bounds_witness :
    (encodeConvert 2 2 [0, 0, 255, 9, 0, 0, 255, 9, 0, 0, 255, 9, 0, 0, 255]).isSome = true
    ∧ encodeConvert 2 2 [0, 0, 255, 9, 0, 0, 255, 9, 0, 0, 255, 9, 0, 0] = none :=
  ⟨(C9_bounds 2 2 _).1 (by decide) (by decide) (by decide),
   (C9_bounds 2 2 _).2 (by decide) (by decide) (by decide)⟩
